import Mathlib

set_option maxHeartbeats 1600000

/-!
Verification of the billing-document extraction pipeline
(`src/main.py` and `src/app.py` of the atlassian-quotes repository).

The two Python entry points duplicate one pipeline; where they diverge the
spec describes the UI variant (`app.py`), and each definition below names the
function it embeds.  Strings are modelled as Lean `String`/`List Char`,
Python numbers as `ℚ`, Python dicts as ordered association lists, and
fallible Python code as `Except String`/`Option`.
-/

/-! ### Python string helpers -/

/-- Whitespace characters recognized by Python's `str.strip` / `\s` (ASCII part). -/
def pyIsSpace (c : Char) : Bool :=
  c = ' ' || c = '\t' || c = '\n' || c = '\r' || c = '\x0b' || c = '\x0c'

/-- Python `str.strip()` on a character list: drop whitespace on both ends. -/
def pyStrip (cs : List Char) : List Char :=
  ((cs.dropWhile pyIsSpace).reverse.dropWhile pyIsSpace).reverse

/-- Python `str.strip()` on a `String`. -/
def pyStripStr (s : String) : String :=
  String.mk (pyStrip s.data)

/-- Python's substring test `pat in txt` (`containsSub pat txt`). -/
def containsSub (pat : List Char) : List Char → Bool
  | [] => pat.isEmpty
  | c :: cs => pat.isPrefixOf (c :: cs) || containsSub pat cs

/-- Lookup in an ordered association list (Python `dict` access / `key in d`). -/
def alookup {β : Type} (k : String) : List (String × β) → Option β
  | [] => none
  | (k', v) :: rest => if k' = k then some v else alookup k rest

/-- In-place update of an existing key of an ordered association list
(Python `d[key] = v` for a present key). -/
def aset {β : Type} (k : String) (v : β) : List (String × β) → List (String × β)
  | [] => []
  | (k', v') :: rest => if k' = k then (k', v) :: rest else (k', v') :: aset k v rest

/-! ### Amount parser (`parse_amount`, main.py:183-203 / app.py:249-269) -/

/-- One pass of `re.sub(r'USD\s*', '', s, flags=re.IGNORECASE)`: every
occurrence of `USD` (case-insensitive) together with the following whitespace
run is removed, scanning left to right.  `fuel` is an upper bound on the
number of scanning steps (each step consumes at least one character), so
`stripUSD` below always supplies enough. -/
def stripUSDAux : Nat → List Char → List Char
  | _, [] => []
  | 0, cs => cs
  | fuel + 1, c :: cs =>
    match cs with
    | c₁ :: c₂ :: rest =>
      if c.toLower = 'u' ∧ c₁.toLower = 's' ∧ c₂.toLower = 'd' then
        stripUSDAux fuel (rest.dropWhile pyIsSpace)
      else
        c :: stripUSDAux fuel cs
    | _ => c :: stripUSDAux fuel cs

def stripUSD (cs : List Char) : List Char :=
  stripUSDAux cs.length cs

/-- Value of a run of decimal digits (most significant first). -/
def digitsVal (ds : List Char) : Nat :=
  ds.foldl (fun n c => 10 * n + (c.toNat - 48)) 0

/-- Model of CPython `float(text)` restricted to decimal literals:
optional sign, integer/fraction digits around an optional dot, optional
exponent.  (`inf`/`nan` and `_` digit grouping are outside the inputs this
program feeds it and are not modelled.)  `none` models `ValueError`. -/
def pyFloatNum? (cs : List Char) : Option ℚ :=
  let (sg, body) : ℚ × List Char :=
    match cs with
    | '+' :: r => (1, r)
    | '-' :: r => (-1, r)
    | _ => (1, cs)
  let ip := body.takeWhile Char.isDigit
  let rest := body.dropWhile Char.isDigit
  let (fp, rest2) : List Char × List Char :=
    match rest with
    | '.' :: r => (r.takeWhile Char.isDigit, r.dropWhile Char.isDigit)
    | _ => ([], rest)
  if ip = [] ∧ fp = [] then none
  else
    let mant : ℚ := (digitsVal ip : ℚ) + (digitsVal fp : ℚ) / (10 : ℚ) ^ fp.length
    match rest2 with
    | [] => some (sg * mant)
    | e :: r3 =>
      if e = 'e' ∨ e = 'E' then
        let (esg, ebody) : ℤ × List Char :=
          match r3 with
          | '+' :: r4 => (1, r4)
          | '-' :: r4 => (-1, r4)
          | _ => (1, r3)
        if ebody ≠ [] ∧ ebody.all Char.isDigit then
          some (sg * mant * (10 : ℚ) ^ (esg * (digitsVal ebody : ℤ)))
        else none
      else none

/-- The cleaning phase of `parse_amount`: strip `USD`, remove commas, strip
whitespace, then detect and remove one leading minus sign.  Returns the
negativity flag and the remainder handed to `float`. -/
def cleanedAmount (s : String) : Bool × List Char :=
  let c1 := stripUSD s.data
  let c2 := pyStrip (c1.filter fun c => c ≠ ',')
  match c2 with
  | '-' :: rest => (true, rest)
  | _ => (false, c2)

/-- The function `parse_amount` (identical in main.py:183-203 and app.py:249-269). -/
def parse_amount (s : String) : ℚ :=
  if s = "" then 0
  else
    match pyFloatNum? (cleanedAmount s).2 with
    | some v => if (cleanedAmount s).1 then -v else v
    | none => 0

/-! ### Product text formatter (`format_product_text`,
main.py:205-216 / app.py:271-282) -/

/-- Model of `re.sub(r'(LABEL)', r'\n\1', text)` for a literal, non-empty pattern:
scan left to right, and at each occurrence of the label emit a newline, the
label, and continue after the label (non-overlapping matches).  `fuel` bounds
the number of scanning steps; `subBefore` supplies `cs.length`, which always
suffices since every step consumes at least one character. -/
def subBeforeAux (label : List Char) : Nat → List Char → List Char
  | _, [] => []
  | 0, cs => cs
  | fuel + 1, c :: cs =>
    if label ≠ [] ∧ label.isPrefixOf (c :: cs) then
      '\n' :: (label ++ subBeforeAux label fuel (cs.drop (label.length - 1)))
    else
      c :: subBeforeAux label fuel cs

def subBefore (label : List Char) (cs : List Char) : List Char :=
  subBeforeAux label cs.length cs

def entLabel : String := "Entitlement Number:"

def billLabel : String := "Billing period:"

/-- The function `format_product_text` (identical in main.py:205-216 and app.py:271-282). -/
def format_product_text (s : String) : String :=
  if s = "" then s
  else String.mk (subBefore billLabel.data (subBefore entLabel.data s.data))

/-! ### Base product name (app.py:120-122 / main.py:62-64):
`re.sub(r'\s*\([^)]*\)\s*$', '', description).strip()`, falling back to the
raw description when the result is empty. -/

/-- Remove the regex match `\s*\([^)]*\)\s*$` from the end of `s`, if any.
The match exists iff, after the trailing whitespace, the text ends in `)`
and some `(` occurs after every other `)`; the leftmost match starts at the
first such `(` (with its preceding whitespace run, which the outer `strip`
removes anyway). -/
def stripTrailingParens (s : List Char) : List Char :=
  let t := (s.reverse.dropWhile pyIsSpace).reverse
  if t.getLast? = some ')' then
    let body := t.dropLast
    let afterSeg := (body.reverse.takeWhile fun c => c ≠ ')').reverse
    if afterSeg.any fun c => c = '(' then
      body.take (body.length - afterSeg.length) ++ afterSeg.takeWhile fun c => c ≠ '('
    else s
  else s

def baseProductOf (description : String) : String :=
  let b := pyStrip (stripTrailingParens description.data)
  if b = [] then description else String.mk b


/-! ### Data model -/

/-- One entry of a billing line's `margins` array, with the fields the code
reads (`margin.get('percent', 0)`, `margin.get('amount', 0)`). -/
structure Margin where
  percent : ℚ
  amount : ℚ
deriving DecidableEq, Repr

/-- A JSON billing line with the fields `extract_from_json_content`
(app.py:103-117) reads, at the types the code expects:
`description`, `total`, `subTotal`, `margins`, `isCreditLine`.
Each field models `line.get(key, default)`. -/
structure RawLine where
  description : String
  total : ℚ
  subTotal : ℚ
  margins : List Margin
  isCreditLine : Bool
deriving DecidableEq, Repr

/-- One extracted row (`{'sno', 'product', 'amount_excl_tax', 'discount'}`). -/
structure LineItem where
  sno : String
  product : String
  amount_excl_tax : ℚ
  discount : String
deriving DecidableEq, Repr

/-- A `product_groups` entry (app.py:132-137):
`{'product': ..., 'amounts': [...], 'discount': 'Y'/'N'}`. -/
structure PGroup where
  product : String
  amounts : List ℚ
  discount : String
deriving DecidableEq, Repr

/-! ### JSON extractor, line-level computations (app.py:103-144) -/

/-- app.py:110: `amount = total / 100.0 if total != 0 else
(subTotal / 100.0 if subTotal != 0 else 0.0)`. -/
def lineAmount (l : RawLine) : ℚ :=
  if l.total ≠ 0 then l.total / 100
  else if l.subTotal ≠ 0 then l.subTotal / 100
  else 0

/-- app.py:113-117: a line is kept unless its amount is 0 and it is not
flagged `isCreditLine`. -/
def keepLine (l : RawLine) : Bool :=
  !(lineAmount l = 0 && !l.isCreditLine)

/-- app.py:125-129: `'Y'` as soon as some margin has `percent > 0` or
`amount != 0` (the loop breaks at the first hit), else `'N'`. -/
def lineDiscountFlag (l : RawLine) : String :=
  if l.margins.any (fun m => decide (0 < m.percent) || decide (m.amount ≠ 0)) then "Y" else "N"

/-- The body of the `for line in lines:` loop of app.py:103-144, acting on
the ordered `product_groups` dict. -/
def jsonStep (groups : List (String × PGroup)) (l : RawLine) : List (String × PGroup) :=
  if keepLine l = false then groups
  else
    let amount := lineAmount l
    let base := baseProductOf l.description
    let d := lineDiscountFlag l
    match alookup base groups with
    | none => groups ++ [(base, ⟨l.description, [amount], d⟩)]
    | some g =>
      aset base ⟨g.product, g.amounts ++ [amount], if d = "Y" then "Y" else g.discount⟩ groups

/-- The full `product_groups` dict built from the billing lines. -/
def productGroups (lines : List RawLine) : List (String × PGroup) :=
  lines.foldl jsonStep []

/-- app.py:150-169: flatten `product_groups` into `table_data`: one head
item per group with a 1-based stringified sequence number, then one
continuation item per remaining amount. -/
def flattenGroups (groups : List (String × PGroup)) : List LineItem :=
  groups.enum.flatMap fun p =>
    ⟨toString (p.1 + 1), p.2.2.product, p.2.2.amounts.headI, p.2.2.discount⟩ ::
      (p.2.2.amounts.drop 1).map fun a => ⟨"", "", a, "N"⟩

/-! ### JSON value tree and the billing-lines path probe (app.py:52-98) -/

/-- A parsed JSON value (`json.loads` output). -/
inductive JVal where
  | null : JVal
  | bool (b : Bool) : JVal
  | num (q : ℚ) : JVal
  | str (s : String) : JVal
  | arr (elems : List JVal) : JVal
  | obj (fields : List (String × JVal)) : JVal

/-- app.py:56-65: the candidate key paths, in the order the code probes them. -/
def possiblePaths : List (List String) :=
  [["upcomingBills", "lines"],
   ["lines"],
   ["QuoteDetails", "upcomingBills", "lines"],
   ["quote", "upcomingBills", "lines"],
   ["data", "upcomingBills", "lines"]]

/-- app.py:69-74: walk one key path; the walk fails (`break`) as soon as the
current value is not a dict containing the key. -/
def followPath : JVal → List String → Option JVal
  | v, [] => some v
  | JVal.obj fields, k :: rest =>
    match alookup k fields with
    | some v => followPath v rest
    | none => none
  | _, _ :: _ => none

/-- app.py:75-79: a path is accepted when its full traversal succeeds and
yields a non-empty array. -/
def pathLines (data : JVal) (path : List String) : Option (List JVal) :=
  match followPath data path with
  | some (JVal.arr xs) => if xs.isEmpty then none else some xs
  | _ => none

/-- app.py:67-82: the first accepted path wins; `none` models the
`if not lines:` fallthrough (app.py:84-96) that returns `[]`. -/
def findLines (data : JVal) : Option (List JVal) :=
  possiblePaths.findSome? (pathLines data)

/-! ### JSON extractor over raw JSON values (app.py:42-171)

The per-line loop re-expressed over `JVal`, at dynamic-typing fidelity:
operations that raise in Python (`TypeError` on arithmetic/comparison with a
non-number, `AttributeError` on `.get` of a non-dict) are modelled as
`Except.error`.  Python `bool` is an `int` subclass, so `True` behaves as 1
and `False` as 0 in arithmetic. -/

/-- Python truthiness of a JSON value. -/
def pyTruthy : JVal → Bool
  | JVal.null => false
  | JVal.bool b => b
  | JVal.num q => q ≠ 0
  | JVal.str s => s ≠ ""
  | JVal.arr xs => !xs.isEmpty
  | JVal.obj fs => !fs.isEmpty

/-- Model of `v != 0` then `v / 100.0`: `.ok (some q)` when `v != 0` with quotient `q`,
`.ok none` when `v == 0`, `.error` when the division raises `TypeError`. -/
def asNumNonzero : JVal → Except String (Option ℚ)
  | JVal.num q => .ok (if q ≠ 0 then some (q / 100) else none)
  | JVal.bool b => .ok (if b then some (1 / 100) else none)
  | _ => .error "TypeError"

/-- app.py:110: the amount with `subTotal` fallback, over raw JSON values. -/
def amountOf (total subTotal : JVal) : Except String ℚ := do
  match ← asNumNonzero total with
  | some q => return q
  | none =>
    match ← asNumNonzero subTotal with
    | some r => return r
    | none => return 0

/-- Model of `margin.get('percent', 0) > 0` (comparison with a non-number raises). -/
def gtZero : JVal → Except String Bool
  | JVal.num q => .ok (decide (0 < q))
  | JVal.bool b => .ok b
  | _ => .error "TypeError"

/-- Model of `margin.get('amount', 0) != 0` (never raises; values of a different type
are simply unequal to 0). -/
def neZeroJ : JVal → Bool
  | JVal.num q => q ≠ 0
  | JVal.bool b => b
  | _ => true

/-- Model of `line.get(k, d)` over a JSON object's fields. -/
def getFieldD (fields : List (String × JVal)) (k : String) (d : JVal) : JVal :=
  (alookup k fields).getD d

/-- app.py:125-129 over raw JSON margins: first margin with
`percent > 0 or amount != 0` wins (the loop breaks). -/
def hasDiscountJ : List JVal → Except String Bool
  | [] => .ok false
  | m :: rest => do
    let fs ← match m with
      | JVal.obj fs => pure fs
      | _ => Except.error "AttributeError"
    let p ← gtZero (getFieldD fs "percent" (JVal.num 0))
    if p || neZeroJ (getFieldD fs "amount" (JVal.num 0)) then return true
    else hasDiscountJ rest

/-- The body of the `for line in lines:` loop of app.py:103-144 over raw
JSON values.  Field reads happen up front; the `description` type is only
exercised by `re.sub` after the zero-amount skip, and `margins` must be
iterable with dict entries (an empty string or dict iterates to nothing). -/
def lineStepJ (groups : List (String × PGroup)) (line : JVal) :
    Except String (List (String × PGroup)) := do
  let fields ← match line with
    | JVal.obj fs => pure fs
    | _ => Except.error "AttributeError"
  let description := getFieldD fields "description" (JVal.str "")
  let total := getFieldD fields "total" (JVal.num 0)
  let subTotal := getFieldD fields "subTotal" (JVal.num 0)
  let margins := getFieldD fields "margins" (JVal.arr [])
  let amount ← amountOf total subTotal
  if amount = 0 ∧ pyTruthy (getFieldD fields "isCreditLine" (JVal.bool false)) = false then
    return groups
  else
    let descr ← match description with
      | JVal.str s => pure s
      | _ => Except.error "TypeError"
    let base := baseProductOf descr
    let ms ← match margins with
      | JVal.arr xs => pure xs
      | JVal.str "" => pure []
      | JVal.obj [] => pure []
      | _ => Except.error "TypeError"
    let hd ← hasDiscountJ ms
    let d := if hd then "Y" else "N"
    match alookup base groups with
    | none => return groups ++ [(base, ⟨descr, [amount], d⟩)]
    | some g =>
      return aset base ⟨g.product, g.amounts ++ [amount], if d = "Y" then "Y" else g.discount⟩ groups

/-- The function `extract_from_json_content` (app.py:42-171).  The argument is the result
of `json.loads`: `none` models a `JSONDecodeError`, which the function
catches itself, reporting and returning `[]` (app.py:46-50).  Later type
errors in the loop are NOT caught here and propagate to the caller. -/
def extractFromJsonContent (parsed : Option JVal) : Except String (List LineItem) :=
  match parsed with
  | none => .ok []
  | some data =>
    match findLines data with
    | none => .ok []
    | some lines =>
      match lines.foldlM lineStepJ [] with
      | .error e => .error e
      | .ok groups => .ok (if groups.isEmpty then [] else flattenGroups groups)

/-! ### Grouper (`group_by_sno`, main.py:218-239 / app.py:284-305) -/

/-- Model of `grouped[sno].append(item)`, creating `grouped[sno] = []` first when the
key is absent (insertion at the end preserves dict order). -/
def appendToGroup (k : String) (it : LineItem) (acc : List (String × List LineItem)) :
    List (String × List LineItem) :=
  match alookup k acc with
  | none => acc ++ [(k, [it])]
  | some g => aset k (g ++ [it]) acc

/-- Python truthiness of `current_sno`: `None` and `''` are falsy. -/
def curTruthy : Option String → Bool
  | some c => c ≠ ""
  | none => false

/-- The loop of `group_by_sno`: `cur` is `current_sno` (`none` = Python
`None`); an empty `sno` joins the current group only when `current_sno` is
truthy (neither `None` nor `''`), otherwise it becomes the current key. -/
def groupBySnoAux (acc : List (String × List LineItem)) (cur : Option String) :
    List LineItem → List (String × List LineItem)
  | [] => acc
  | it :: rest =>
    if it.sno = "" ∧ curTruthy cur then
      groupBySnoAux (appendToGroup (cur.getD "") it acc) cur rest
    else
      groupBySnoAux (appendToGroup it.sno it acc) (some it.sno) rest

/-- The function `group_by_sno` (identical in main.py:218-239 and app.py:284-305). -/
def groupBySno (items : List LineItem) : List (String × List LineItem) :=
  groupBySnoAux [] none items

/-! ### Spreadsheet renderer (`create_excel_content`, app.py:307-417;
`create_excel_output`, main.py:241-349) -/

/-- Python `x.isdigit()` (ASCII): non-empty and all decimal digits. -/
def isDigitKey (s : String) : Bool :=
  s ≠ "" && s.data.all Char.isDigit

/-- The sort key of app.py:343: `int(x) if x.isdigit() else 999`. -/
def pyKey (s : String) : Nat :=
  if isDigitKey s then digitsVal s.data else 999

/-- Stable insertion into a list sorted by `pyKey` (an element moves past
another only when its key is strictly smaller, so equal keys keep their
relative order, as Python's stable `sorted` does). -/
def insertByKey (x : String) : List String → List String
  | [] => [x]
  | y :: ys => if pyKey y < pyKey x then y :: insertByKey x ys else x :: y :: ys

/-- Model of `sorted(keys, key=lambda x: int(x) if x.isdigit() else 999)`:
modelled as a stable sort by `pyKey` (Python's sort is stable, and a stable
sort by a fixed key is unique). -/
def sortBySno (l : List String) : List String :=
  l.foldr insertByKey []

/-- A value written to a spreadsheet cell. -/
inductive CellVal where
  | str (s : String) : CellVal
  | num (q : ℚ) : CellVal
deriving DecidableEq, Repr

/-- The total-column cell written for one rendered group: its key, its head
row, its number of items and the written formula. -/
structure EGroupCell where
  sno : String
  row : Nat
  size : Nat
  formula : String
deriving DecidableEq, Repr

/-- The rendering loop of app.py:343-392: iterate the sorted keys, skip
empty groups, emit one total-formula cell per group at the group's head row
(`=D{r}` for a single item, `=SUM(D{r}:D{r+n-1})` otherwise), and advance
`current_row` by the group size.  Returns the emitted cells (in order, also
the `formula_rows` list) and the final `current_row`. -/
def renderEGo (grouped : List (String × List LineItem)) :
    List String → Nat → List EGroupCell → List EGroupCell × Nat
  | [], row, acc => (acc, row)
  | k :: rest, row, acc =>
    match (alookup k grouped).getD [] with
    | [] => renderEGo grouped rest row acc
    | items =>
      let n := items.length
      let f := if n = 1 then "=D" ++ toString row
               else "=SUM(D" ++ toString row ++ ":D" ++ toString (row + n - 1) ++ ")"
      renderEGo grouped rest (row + n) (acc ++ [⟨k, row, n, f⟩])

/-- The per-group total cells and final row of the rendering pass
(data rows start at spreadsheet row 2). -/
def renderE (grouped : List (String × List LineItem)) : List EGroupCell × Nat :=
  renderEGo grouped (sortBySno (grouped.map Prod.fst)) 2 []

/-- app.py:399-404: the grand-total cell, written at the final `current_row`:
`=SUM(E{r1},E{r2},...)` over every group's total cell when at least one group
was rendered, the literal 0 otherwise. -/
def grandTotal (grouped : List (String × List LineItem)) : CellVal :=
  let cells := (renderE grouped).1
  if cells.isEmpty then CellVal.num 0
  else CellVal.str ("=SUM(" ++ String.intercalate "," (cells.map fun c => "E" ++ toString c.row) ++ ")")

/-- The observable output of `create_excel_content` that the claims are
about: the group total cells, the grand-total row number and its cell. -/
def createExcelContent (grouped : List (String × List LineItem)) :
    (List EGroupCell × Nat) × CellVal :=
  (renderE grouped, grandTotal grouped)

/-! ### PDF table extractor (main.py:111-181 / app.py:173-247)

A `pdfplumber` table is a list of rows, each a list of cells; a cell is
`none` (Python `None`) or a string.  Out-of-range list indexing models
Python's `IndexError` as `Except.error`. -/

/-- One extracted table. -/
def PTable := List (List (Option String))

/-- Model of `str(cell).strip() if cell else ''`: a missing or falsy cell gives `''`,
otherwise the stripped text. -/
def cellText (c : Option String) : String :=
  pyStripStr (c.getD "")

/-- main.py:135-144: the header scan.  Each header is lowercased and tested
by substring; a later matching header overwrites an earlier index.  State is
`(sno_idx, product_idx, amount_excl_tax_idx, discount_idx)`. -/
def resolveColsAux : Nat → (Option Nat × Option Nat × Option Nat × Option Nat) →
    List String → Option Nat × Option Nat × Option Nat × Option Nat
  | _, st, [] => st
  | i, (s, p, a, d), h :: rest =>
    let hl := h.data.map Char.toLower
    let st' :=
      if containsSub "s.no".data hl || containsSub "sno".data hl then (some i, p, a, d)
      else if containsSub "product".data hl then (s, some i, a, d)
      else if containsSub "amount".data hl && containsSub "excl".data hl then (s, p, some i, d)
      else if containsSub "discount".data hl then (s, p, a, some i)
      else (s, p, a, d)
    resolveColsAux (i + 1) st' rest

def resolveCols (headers : List String) : Option Nat × Option Nat × Option Nat × Option Nat :=
  resolveColsAux 0 (none, none, none, none) headers

/-- The remainder of the row body after the cell reads: skip fully empty
rows, parse the amount, and derive the discount flag
(`'Y' if discount_str and discount_str != '' and discount_str != '0' else 'N'`). -/
def processRowRest (sno product amount_str discount_str : String) :
    Except String (Option LineItem) :=
  if sno = "" ∧ product = "" ∧ amount_str = "" then .ok none
  else
    .ok (some ⟨sno, product, parse_amount amount_str,
      if discount_str ≠ "" ∧ discount_str ≠ "0" then "Y" else "N"⟩)

/-- main.py:152-176: process one data row.  `.ok none` models `continue`
(row too short, or entirely empty); the guard only checks the maximum of the
sno/product/amount indices, and the later `row[discount_idx]` access inside
the conditional expression is unguarded, so it can raise `IndexError`. -/
def processRow (snoI prodI amtI : Nat) (discI : Option Nat) (row : List (Option String)) :
    Except String (Option LineItem) :=
  if row.length ≤ max snoI (max prodI amtI) then .ok none
  else
    let sno := cellText ((row.get? snoI).getD none)
    let product := cellText ((row.get? prodI).getD none)
    let amount_str := cellText ((row.get? amtI).getD none)
    match discI with
    | none => processRowRest sno product amount_str ""
    | some d =>
      match row.get? d with
      | none => .error "IndexError"
      | some c => processRowRest sno product amount_str (cellText c)

/-- main.py:122-179: process one table: need at least 2 rows, resolve the
header roles from row 0, skip the table when sno/product/amount cannot all
be resolved, then fold the data rows; a table with no retained rows is
dropped (`.ok none`). -/
def processTable (table : List (List (Option String))) : Except String (Option (List LineItem)) :=
  if table.length < 2 then .ok none
  else
    let headers := (table.headI).map cellText
    match resolveCols headers with
    | (some s, some p, some a, d) => do
      let rows ← (table.drop 1).foldlM
        (fun acc row => do
          let r ← processRow s p a d row
          match r with
          | some li => pure (acc ++ [li])
          | none => pure acc)
        ([] : List LineItem)
      if rows.isEmpty then return none else return (some rows)
    | _ => .ok none

/-- The whole-document fold over extracted tables (`all_tables`). -/
def tablesToItems (tables : List (List (List (Option String)))) :
    Except String (List (List LineItem)) :=
  tables.foldlM
    (fun acc table => do
      let r ← processTable table
      match r with
      | some td => pure (acc ++ [td])
      | none => pure acc)
    []

/-- The function `extract_tables_from_pdf_content` (app.py:173-247): the whole pdfplumber
loop runs inside `try/except Exception`, so both a pdfplumber failure (the
`Except.error` of the argument) and a processing error yield `[]`. -/
def extractTablesFromPdfContent (src : Except String (List (List (List (Option String))))) :
    List (List LineItem) :=
  match src >>= tablesToItems with
  | .ok r => r
  | .error _ => []

/-! ### Per-document processing boundary (`process_single_file`, app.py:419-452) -/

/-- One classified input document, as seen by `process_single_file` after
`detect_input_type_from_content`:
* `jsonDoc none` — bytes that are not valid UTF-8 (`decode` raises);
* `jsonDoc (some none)` — text that `json.loads` rejects (`JSONDecodeError`);
* `jsonDoc (some (some v))` — the parsed JSON value;
* `pdfDoc (.error e)` — pdfplumber raises on the bytes;
* `pdfDoc (.ok tables)` — the tables pdfplumber extracts. -/
inductive Doc where
  | jsonDoc (decoded : Option (Option JVal)) : Doc
  | pdfDoc (tables : Except String (List (List (List (Option String))))) : Doc

/-- The success triple returned at the end of the `try:` body
(app.py:443-449): group, render, and report the counts. -/
def processedOk (combined : List LineItem) :
    Option ((List EGroupCell × Nat) × CellVal) × String × String :=
  (some (createExcelContent (groupBySno combined)), "success",
    "Successfully processed " ++ toString combined.length ++ " items into " ++
      toString (groupBySno combined).length ++ " groups")

/-- The `try:` body of `process_single_file` (app.py:423-449): any
`Except.error` escaping here models an exception reaching the
`except Exception` handler. -/
def processSingleFileBody (d : Doc) :
    Except String (Option ((List EGroupCell × Nat) × CellVal) × String × String) :=
  match d with
  | Doc.jsonDoc none => .error "UnicodeDecodeError"
  | Doc.jsonDoc (some p) =>
    match extractFromJsonContent p with
    | .error e => .error e
    | .ok table_data =>
      if table_data.isEmpty then .ok (none, "error", "No data extracted from JSON")
      else .ok (processedOk table_data)
  | Doc.pdfDoc tables =>
    let all_tables := extractTablesFromPdfContent tables
    if all_tables.isEmpty then .ok (none, "error", "No tables found in PDF")
    else .ok (processedOk all_tables.flatten)

/-- The function `process_single_file` (app.py:419-452): the catch-all boundary turns any
exception into an `(None, "error", message)` triple. -/
def processSingleFile (d : Doc) : Option ((List EGroupCell × Nat) × CellVal) × String × String :=
  match processSingleFileBody d with
  | .ok r => r
  | .error e => (none, "error", "Error processing file: " ++ e)

/-! ### Claim-side reference definitions (used only to state claims) -/

/-- Formalization of the claimed grouping rule (spec §4.6): the resolved key
of each item is the most recent non-empty sequence number seen, starting
from the empty string. -/
def resolveKeysClaim : String → List String → List String
  | _, [] => []
  | cur, s :: rest =>
    let k := if s = "" then cur else s
    k :: resolveKeysClaim k rest

/-- The keys of a list in order of first occurrence, skipping ones in `seen`. -/
def firstOccAux : List String → List String → List String
  | _, [] => []
  | seen, k :: rest =>
    if k ∈ seen then firstOccAux seen rest else k :: firstOccAux (seen ++ [k]) rest

def firstOcc (l : List String) : List String :=
  firstOccAux [] l

/-- A JSON document carrying billing lines both at the flat `lines` key and
under `upcomingBills.lines`, with different contents. -/
def dataBoth : JVal :=
  JVal.obj [("lines", JVal.arr [JVal.num 1]),
            ("upcomingBills", JVal.obj [("lines", JVal.arr [JVal.num 2])])]

/-! ### Association-list lemmas -/

theorem alookup_aset_self {β : Type} (k : String) (v : β) (l : List (String × β))
    (h : (alookup k l).isSome) : alookup k (aset k v l) = some v := by
  induction l with
  | nil => simp [alookup] at h
  | cons hd tl ih =>
    obtain ⟨k', v'⟩ := hd
    by_cases hk : k' = k
    · simp [alookup, aset, hk]
    · simp [alookup, aset, hk] at h ⊢
      exact ih h

theorem alookup_aset_other {β : Type} (k k' : String) (v : β) (l : List (String × β))
    (h : k' ≠ k) : alookup k' (aset k v l) = alookup k' l := by
  induction l with
  | nil => simp [aset]
  | cons hd tl ih =>
    obtain ⟨k₀, v₀⟩ := hd
    by_cases hk : k₀ = k
    · subst hk
      simp [alookup, aset, Ne.symm h]
    · simp only [aset, if_neg hk]
      by_cases hk' : k₀ = k'
      · simp [alookup, hk']
      · simp [alookup, hk', ih]

theorem alookup_append_left {β : Type} (k : String) (l m : List (String × β)) (g : β)
    (h : alookup k l = some g) : alookup k (l ++ m) = some g := by
  induction l with
  | nil => simp [alookup] at h
  | cons hd tl ih =>
    obtain ⟨k₀, v₀⟩ := hd
    by_cases hk : k₀ = k
    · simp [alookup, hk] at h ⊢
      exact h
    · simp [alookup, hk] at h ⊢
      exact ih h

theorem alookup_append_right {β : Type} (k : String) (l m : List (String × β))
    (h : alookup k l = none) : alookup k (l ++ m) = alookup k m := by
  induction l with
  | nil => simp
  | cons hd tl ih =>
    obtain ⟨k₀, v₀⟩ := hd
    by_cases hk : k₀ = k
    · simp [alookup, hk] at h
    · simp [alookup, hk] at h ⊢
      exact ih h

theorem alookup_isSome_iff {β : Type} (k : String) (l : List (String × β)) :
    (alookup k l).isSome = true ↔ k ∈ l.map Prod.fst := by
  induction l with
  | nil => simp [alookup]
  | cons hd tl ih =>
    obtain ⟨k₀, v₀⟩ := hd
    by_cases hk : k₀ = k
    · simp [alookup, hk]
    · simp [alookup, hk, ih, Ne.symm hk]

theorem aset_map_fst {β : Type} (k : String) (v : β) (l : List (String × β)) :
    (aset k v l).map Prod.fst = l.map Prod.fst := by
  induction l with
  | nil => simp [aset]
  | cons hd tl ih =>
    obtain ⟨k₀, v₀⟩ := hd
    by_cases hk : k₀ = k
    · simp [aset, hk]
    · simp [aset, hk, ih]

/-! ### Claim C4: the amount parser -/

/-- C4: the amount parser is total: `"USD 1,234.56" ↦ 1234.56`,
`"-1,234.56" ↦ -1234.56`, `"1234.56" ↦ 1234.56`, and any input whose cleaned
remainder is not numeric (such as `""` or `"N/A"`) yields `0.0` instead of
an error. -/
theorem claim_C4 :
    parse_amount "USD 1,234.56" = 1234.56 ∧
    parse_amount "-1,234.56" = -1234.56 ∧
    parse_amount "1234.56" = 1234.56 ∧
    parse_amount "" = 0 ∧
    parse_amount "N/A" = 0 ∧
    ∀ s : String, pyFloatNum? (cleanedAmount s).2 = none → parse_amount s = 0 := by
  have hval : (1 : ℚ) * (((1234 : ℕ) : ℚ) + ((56 : ℕ) : ℚ) / (10 : ℚ) ^ (2 : ℕ)) = 1234.56 := by
    norm_num
  refine ⟨?_, ?_, ?_, rfl, rfl, ?_⟩
  · have h : parse_amount "USD 1,234.56"
        = 1 * (((1234 : ℕ) : ℚ) + ((56 : ℕ) : ℚ) / (10 : ℚ) ^ (2 : ℕ)) := rfl
    rw [h, hval]
  · have h : parse_amount "-1,234.56"
        = -(1 * (((1234 : ℕ) : ℚ) + ((56 : ℕ) : ℚ) / (10 : ℚ) ^ (2 : ℕ))) := rfl
    rw [h, hval]
  · have h : parse_amount "1234.56"
        = 1 * (((1234 : ℕ) : ℚ) + ((56 : ℕ) : ℚ) / (10 : ℚ) ^ (2 : ℕ)) := rfl
    rw [h, hval]
  · intro s h
    by_cases hs : s = ""
    · simp [parse_amount, hs]
    · simp [parse_amount, hs, h]

theorem claim_C4_witness : parse_amount "N/A" = 0 :=
  claim_C4.2.2.2.2.2 "N/A" rfl

/-! ### Claim C1: JSON line amount derivation and zero-line discard -/

theorem jsonStep_skip (g : List (String × PGroup)) (l : RawLine)
    (h0 : lineAmount l = 0) (hc : l.isCreditLine = false) : jsonStep g l = g := by
  simp [jsonStep, keepLine, h0, hc]

/-- C1: the extractor derives a line's amount as `total/100` when `total` is
nonzero, else `subTotal/100` when `subTotal` is nonzero, else 0; a line with
amount 0 that is not a credit line contributes nothing to any product group;
and `total=0, subTotal=500` yields the amount `5.0`. -/
theorem claim_C1 :
    (∀ l : RawLine, l.total ≠ 0 → lineAmount l = l.total / 100) ∧
    (∀ l : RawLine, l.total = 0 → l.subTotal ≠ 0 → lineAmount l = l.subTotal / 100) ∧
    (∀ l : RawLine, l.total = 0 → l.subTotal = 0 → lineAmount l = 0) ∧
    (∀ (pre post : List RawLine) (l : RawLine), lineAmount l = 0 → l.isCreditLine = false →
      productGroups (pre ++ l :: post) = productGroups (pre ++ post)) ∧
    lineAmount ⟨"", 0, 500, [], false⟩ = 5 := by
  refine ⟨?_, ?_, ?_, ?_, ?_⟩
  · intro l h
    simp [lineAmount, h]
  · intro l h0 h1
    simp [lineAmount, h0, h1]
  · intro l h0 h1
    simp [lineAmount, h0, h1]
  · intro pre post l h0 hc
    simp [productGroups, List.foldl_append, List.foldl_cons, jsonStep_skip _ l h0 hc]
  · norm_num [lineAmount]

theorem claim_C1_witness : lineAmount ⟨"", 0, 500, [], false⟩ = 500 / 100 :=
  claim_C1.2.1 ⟨"", 0, 500, [], false⟩ rfl (by norm_num)

/-! ### Claim C8: discount flag from margins -/

/-- C8 counterexample: the code tests `percent > 0`, not `percent != 0`.
A margin with percent `-1` and amount `0` satisfies the claim's
"nonzero percent or nonzero amount" condition, yet the computed flag is `N`. -/
theorem claim_C8_cex :
    lineDiscountFlag ⟨"p", 0, 0, [⟨-1, 0⟩], false⟩ = "N" ∧
    ∃ m ∈ ([⟨-1, 0⟩] : List Margin), m.percent ≠ 0 ∨ m.amount ≠ 0 := by
  refine ⟨rfl, ⟨-1, 0⟩, by simp, Or.inl (by norm_num)⟩

theorem jsonStep_discount_set (groups : List (String × PGroup)) (l : RawLine)
    (hk : keepLine l = true) (hd : lineDiscountFlag l = "Y") :
    ∃ g, alookup (baseProductOf l.description) (jsonStep groups l) = some g ∧
      g.discount = "Y" := by
  rw [jsonStep]
  rw [hk]
  simp only [Bool.true_eq_false, if_false, hd]
  cases h : alookup (baseProductOf l.description) groups with
  | none =>
    refine ⟨⟨l.description, [lineAmount l], "Y"⟩, ?_, rfl⟩
    rw [alookup_append_right _ _ _ h]
    simp [alookup]
  | some g =>
    refine ⟨⟨g.product, g.amounts ++ [lineAmount l], "Y"⟩, ?_, rfl⟩
    simpa using alookup_aset_self _ _ groups (by simp [h])

theorem jsonStep_discount_mono (groups : List (String × PGroup)) (l : RawLine) (k : String)
    (g : PGroup) (h : alookup k groups = some g) (hg : g.discount = "Y") :
    ∃ g', alookup k (jsonStep groups l) = some g' ∧ g'.discount = "Y" := by
  rw [jsonStep]
  cases hkeep : keepLine l with
  | false => exact ⟨g, by simpa using h, hg⟩
  | true =>
    simp only [Bool.true_eq_false, if_false]
    cases hb : alookup (baseProductOf l.description) groups with
    | none =>
      exact ⟨g, alookup_append_left _ _ _ _ h, hg⟩
    | some g₀ =>
      by_cases hkk : k = baseProductOf l.description
      · subst hkk
        rw [h] at hb
        cases hb
        refine ⟨_, alookup_aset_self _ _ groups (by simp [h]), ?_⟩
        simp only [hg]
        split <;> rfl
      · exact ⟨g, by rw [alookup_aset_other _ _ _ _ hkk]; exact h, hg⟩

theorem foldl_jsonStep_discount_mono (ls : List RawLine) (groups : List (String × PGroup))
    (k : String) (g : PGroup) (h : alookup k groups = some g) (hg : g.discount = "Y") :
    ∃ g', alookup k (ls.foldl jsonStep groups) = some g' ∧ g'.discount = "Y" := by
  induction ls generalizing groups g with
  | nil => exact ⟨g, h, hg⟩
  | cons x rest ih =>
    obtain ⟨g', h', hg'⟩ := jsonStep_discount_mono groups x k g h hg
    exact ih (jsonStep groups x) g' h' hg'

theorem foldl_jsonStep_contrib (ls : List RawLine) (groups : List (String × PGroup))
    (l : RawLine) (hmem : l ∈ ls) (hk : keepLine l = true) (hd : lineDiscountFlag l = "Y") :
    ∃ g, alookup (baseProductOf l.description) (ls.foldl jsonStep groups) = some g ∧
      g.discount = "Y" := by
  induction ls generalizing groups with
  | nil => cases hmem
  | cons x rest ih =>
    rw [List.foldl_cons]
    rcases List.mem_cons.mp hmem with rfl | hmem'
    · obtain ⟨g, hg, hgd⟩ := jsonStep_discount_set groups l hk hd
      exact foldl_jsonStep_discount_mono rest (jsonStep groups l) _ g hg hgd
    · exact ih (jsonStep groups x) hmem'

/-- C8 amended: a line's flag is `Y` iff some margin has a **positive**
percent or a nonzero amount (not: nonzero percent); and a product group's
flag is `Y` whenever some contributing (kept) line's flag is `Y`. -/
theorem claim_C8_amended :
    (∀ l : RawLine, lineDiscountFlag l = "Y" ↔ ∃ m ∈ l.margins, 0 < m.percent ∨ m.amount ≠ 0) ∧
    (∀ (lines : List RawLine) (l : RawLine), l ∈ lines → keepLine l = true →
      lineDiscountFlag l = "Y" →
      ∃ g, alookup (baseProductOf l.description) (productGroups lines) = some g ∧
        g.discount = "Y") := by
  constructor
  · intro l
    rw [lineDiscountFlag]
    split
    case isTrue h =>
      simp only [true_iff]
      simpa using h
    case isFalse h =>
      constructor
      · intro hc
        simp at hc
      · intro he
        refine absurd ?_ h
        rw [List.any_eq_true]
        obtain ⟨m, hm, hmp⟩ := he
        exact ⟨m, hm, by simpa using hmp⟩
  · intro lines l hmem hk hd
    exact foldl_jsonStep_contrib lines [] l hmem hk hd

theorem claim_C8_amended_witness :
    ∃ g, alookup (baseProductOf "p") (productGroups [⟨"p", 100, 0, [⟨1, 0⟩], false⟩]) = some g ∧
      g.discount = "Y" :=
  claim_C8_amended.2 [⟨"p", 100, 0, [⟨1, 0⟩], false⟩] ⟨"p", 100, 0, [⟨1, 0⟩], false⟩
    (by simp) (by norm_num [keepLine, lineAmount]) rfl

/-! ### Claim C10: unguarded discount-column access in the PDF row loop -/

/-- C10: the row-length guard only covers the sno/product/amount indices;
whenever the resolved discount index exceeds all three and a row passes the
guard but is shorter than the discount index, the `row[discount_idx]` access
raises `IndexError`.  The concrete table has headers resolving the discount
column to index 3 and a 3-cell data row. -/
theorem claim_C10 :
    (∀ (s p a dI : Nat) (row : List (Option String)),
      max s (max p a) < dI → max s (max p a) < row.length → row.length ≤ dI →
      processRow s p a (some dI) row = .error "IndexError") ∧
    tablesToItems [[[some "S.no", some "Product", some "Amount excl. tax", some "Discount"],
                    [some "1", some "Widget", some "100"]]] = .error "IndexError" := by
  constructor
  · intro s p a dI row h1 h2 h3
    have hnone : row.get? dI = none := List.get?_eq_none.mpr h3
    rw [List.get?_eq_getElem?] at hnone
    rw [processRow, if_neg (by omega)]
    simp [hnone]
  · rfl

theorem claim_C10_witness :
    processRow 0 1 2 (some 3) [some "1", some "x", some "2"] = .error "IndexError" :=
  claim_C10.1 0 1 2 3 [some "1", some "x", some "2"] (by decide) (by decide) (by decide)

/-! ### Claim C5: renderer row ordering -/

/-- C5 counterexample: the sort key caps non-numeric keys at 999, so the
numeric key `"1000"` is rendered **after** the non-numeric key `"abc"`,
contradicting "every numeric key is placed before every non-numeric key". -/
theorem claim_C5_cex :
    (renderE [("1000", [⟨"1000", "", 0, "N"⟩]), ("abc", [⟨"abc", "", 0, "N"⟩])]).1
      = [⟨"abc", 2, 1, "=D2"⟩, ⟨"1000", 3, 1, "=D3"⟩] ∧
    isDigitKey "1000" = true ∧ isDigitKey "abc" = false :=
  ⟨rfl, rfl, rfl⟩

theorem insertByKey_perm (x : String) (l : List String) :
    (insertByKey x l).Perm (x :: l) := by
  induction l with
  | nil => exact List.Perm.refl _
  | cons y ys ih =>
    rw [insertByKey]
    split
    · exact ((ih.cons y).trans (List.Perm.swap x y ys))
    · exact List.Perm.refl _

theorem sortBySno_perm (l : List String) : (sortBySno l).Perm l := by
  induction l with
  | nil => exact List.Perm.refl _
  | cons x xs ih =>
    exact (insertByKey_perm x (sortBySno xs)).trans (ih.cons x)

theorem insertByKey_pairwise (x : String) (l : List String)
    (h : l.Pairwise fun a b => pyKey a ≤ pyKey b) :
    (insertByKey x l).Pairwise fun a b => pyKey a ≤ pyKey b := by
  induction l with
  | nil => simp [insertByKey]
  | cons y ys ih =>
    rw [insertByKey]
    rcases List.pairwise_cons.mp h with ⟨hy, hys⟩
    split
    case isTrue hlt =>
      refine List.pairwise_cons.mpr ⟨?_, ih hys⟩
      intro z hz
      have hz2 := (insertByKey_perm x ys).mem_iff.mp hz
      rcases List.mem_cons.mp hz2 with rfl | hz'
      · exact Nat.le_of_lt hlt
      · exact hy z hz'
    case isFalse hge =>
      refine List.pairwise_cons.mpr ⟨?_, h⟩
      intro z hz
      rcases List.mem_cons.mp hz with rfl | hz'
      · exact Nat.le_of_not_lt hge
      · exact Nat.le_trans (Nat.le_of_not_lt hge) (hy z hz')

theorem sortBySno_pairwise (l : List String) :
    (sortBySno l).Pairwise fun a b => pyKey a ≤ pyKey b := by
  induction l with
  | nil => simp [sortBySno]
  | cons x xs ih => exact insertByKey_pairwise x (sortBySno xs) ih

theorem sortBySno_key_le (l : List String) (i j : Nat)
    (hi : i < (sortBySno l).length) (hj : j < (sortBySno l).length) (hij : i ≤ j) :
    pyKey ((sortBySno l).get ⟨i, hi⟩) ≤ pyKey ((sortBySno l).get ⟨j, hj⟩) := by
  rcases Nat.lt_or_ge i j with hlt | hge
  · exact List.pairwise_iff_get.mp (sortBySno_pairwise l) ⟨i, hi⟩ ⟨j, hj⟩ hlt
  · have : i = j := Nat.le_antisymm hij hge
    subst this
    exact Nat.le_refl _

/-- C5 amended: the rendered key order is the stable ascending sort by the
key `int(x) if x.isdigit() else 999`.  Hence keys that parse as integers are
mutually in ascending numeric order, but a numeric key placed after a
non-numeric one can exist — exactly when its value is at least 999 (the cap
used for non-numeric keys); numeric keys below 999 do come first. -/
theorem claim_C5_amended :
    ∀ ks : List String,
      (sortBySno ks).Perm ks ∧
      (∀ i j (hi : i < (sortBySno ks).length) (hj : j < (sortBySno ks).length), i ≤ j →
        pyKey ((sortBySno ks).get ⟨i, hi⟩) ≤ pyKey ((sortBySno ks).get ⟨j, hj⟩)) ∧
      (∀ i j (hi : i < (sortBySno ks).length) (hj : j < (sortBySno ks).length), i ≤ j →
        isDigitKey ((sortBySno ks).get ⟨i, hi⟩) = true →
        isDigitKey ((sortBySno ks).get ⟨j, hj⟩) = true →
        digitsVal ((sortBySno ks).get ⟨i, hi⟩).data ≤ digitsVal ((sortBySno ks).get ⟨j, hj⟩).data) ∧
      (∀ i j (hi : i < (sortBySno ks).length) (hj : j < (sortBySno ks).length), i ≤ j →
        isDigitKey ((sortBySno ks).get ⟨i, hi⟩) = false →
        isDigitKey ((sortBySno ks).get ⟨j, hj⟩) = true →
        999 ≤ digitsVal ((sortBySno ks).get ⟨j, hj⟩).data) := by
  intro ks
  refine ⟨sortBySno_perm ks, sortBySno_key_le ks, ?_, ?_⟩
  · intro i j hi hj hij hdi hdj
    have h := sortBySno_key_le ks i j hi hj hij
    rw [pyKey, pyKey, hdi, hdj] at h
    simpa using h
  · intro i j hi hj hij hdi hdj
    have h := sortBySno_key_le ks i j hi hj hij
    rw [pyKey, pyKey, hdi, hdj] at h
    simpa using h

theorem claim_C5_amended_witness :
    pyKey ((sortBySno ["2", "1"]).get ⟨0, by decide⟩)
      ≤ pyKey ((sortBySno ["2", "1"]).get ⟨1, by decide⟩) :=
  (claim_C5_amended ["2", "1"]).2.1 0 1 (by decide) (by decide) (by decide)

/-! ### Claim C3: per-group and grand-total formulas -/

theorem renderEGo_cells (grouped : List (String × List LineItem)) (ks : List String)
    (row : Nat) (acc : List EGroupCell)
    (hacc : ∀ c ∈ acc, 1 ≤ c.size ∧
      (c.size = 1 → c.formula = "=D" ++ toString c.row) ∧
      (1 < c.size → c.formula = "=SUM(D" ++ toString c.row ++ ":D"
        ++ toString (c.row + c.size - 1) ++ ")")) :
    ∀ c ∈ (renderEGo grouped ks row acc).1, 1 ≤ c.size ∧
      (c.size = 1 → c.formula = "=D" ++ toString c.row) ∧
      (1 < c.size → c.formula = "=SUM(D" ++ toString c.row ++ ":D"
        ++ toString (c.row + c.size - 1) ++ ")") := by
  induction ks generalizing row acc with
  | nil => simpa [renderEGo] using hacc
  | cons k rest ih =>
    rw [renderEGo]
    cases hitems : (alookup k grouped).getD [] with
    | nil => exact ih row acc hacc
    | cons it its =>
      refine ih _ _ ?_
      intro c hc
      rcases List.mem_append.mp hc with hcl | hcr
      · exact hacc c hcl
      · rcases List.mem_singleton.mp hcr with rfl
        refine ⟨by simp, ?_, ?_⟩
        · intro h1
          rw [if_pos (show (it :: its).length = 1 from h1)]
        · intro h1
          have h2 : 1 < (it :: its).length := h1
          rw [if_neg (by omega)]

/-- C3: a rendered group of exactly one item gets the formula `=D{r}` at its
head row `r`; a group of `n > 1` items gets `=SUM(D{r}:D{r+n-1})`; the
grand-total cell is `=SUM(...)` over the explicit comma-separated list of
every group's total cell, and the literal number 0 when no group was
rendered. -/
theorem claim_C3 :
    (∀ (grouped : List (String × List LineItem)) (c : EGroupCell),
      c ∈ (renderE grouped).1 → 1 ≤ c.size ∧
      (c.size = 1 → c.formula = "=D" ++ toString c.row) ∧
      (1 < c.size → c.formula = "=SUM(D" ++ toString c.row ++ ":D"
        ++ toString (c.row + c.size - 1) ++ ")")) ∧
    (∀ grouped : List (String × List LineItem), (renderE grouped).1 ≠ [] →
      grandTotal grouped = CellVal.str ("=SUM("
        ++ String.intercalate "," ((renderE grouped).1.map fun c => "E" ++ toString c.row)
        ++ ")")) ∧
    (∀ grouped : List (String × List LineItem), (renderE grouped).1 = [] →
      grandTotal grouped = CellVal.num 0) := by
  refine ⟨?_, ?_, ?_⟩
  · intro grouped c hc
    exact renderEGo_cells grouped _ 2 [] (by simp) c hc
  · intro grouped h
    rw [grandTotal, if_neg (by simpa using h)]
  · intro grouped h
    rw [grandTotal, if_pos (by simpa using h)]

theorem claim_C3_witness :
    grandTotal [("1", [⟨"1", "", 0, "N"⟩, ⟨"", "", 0, "N"⟩, ⟨"", "", 0, "N"⟩]),
                ("2", [⟨"2", "", 0, "N"⟩])] = CellVal.str "=SUM(E2,E5)" := by
  have h := claim_C3.2.1
    [("1", [⟨"1", "", 0, "N"⟩, ⟨"", "", 0, "N"⟩, ⟨"", "", 0, "N"⟩]), ("2", [⟨"2", "", 0, "N"⟩])]
    (by decide)
  exact h.trans (by rfl)

/-! ### Claim C6: billing-lines path probing order -/

/-- C6 counterexample: on a document exposing both a flat `lines` array and
`upcomingBills.lines`, the code takes `upcomingBills.lines`, not the flat
`lines` the claimed priority order would select. -/
theorem claim_C6_cex :
    findLines dataBoth = some [JVal.num 2] ∧ JVal.num 2 ≠ JVal.num 1 := by
  refine ⟨rfl, ?_⟩
  intro h
  rw [JVal.num.injEq] at h
  norm_num at h

/-- C6 amended: the probe order is `upcomingBills.lines` first, then flat
`lines`, then `upcomingBills.lines` under one wrapping key, in the order
`QuoteDetails`, `quote`, `data`; the first path whose full traversal
succeeds with a non-empty array wins and no later path is consulted; if no
path matches, the extractor reports no data. -/
theorem claim_C6_amended :
    (∀ (data : JVal) (xs : List JVal),
      pathLines data ["upcomingBills", "lines"] = some xs → findLines data = some xs) ∧
    (∀ (data : JVal) (xs : List JVal),
      pathLines data ["upcomingBills", "lines"] = none →
      pathLines data ["lines"] = some xs → findLines data = some xs) ∧
    (∀ (data : JVal) (xs : List JVal),
      pathLines data ["upcomingBills", "lines"] = none →
      pathLines data ["lines"] = none →
      pathLines data ["QuoteDetails", "upcomingBills", "lines"] = some xs →
      findLines data = some xs) ∧
    (∀ (data : JVal) (xs : List JVal),
      pathLines data ["upcomingBills", "lines"] = none →
      pathLines data ["lines"] = none →
      pathLines data ["QuoteDetails", "upcomingBills", "lines"] = none →
      pathLines data ["quote", "upcomingBills", "lines"] = some xs →
      findLines data = some xs) ∧
    (∀ (data : JVal) (xs : List JVal),
      pathLines data ["upcomingBills", "lines"] = none →
      pathLines data ["lines"] = none →
      pathLines data ["QuoteDetails", "upcomingBills", "lines"] = none →
      pathLines data ["quote", "upcomingBills", "lines"] = none →
      pathLines data ["data", "upcomingBills", "lines"] = some xs →
      findLines data = some xs) ∧
    (∀ data : JVal, (∀ p ∈ possiblePaths, pathLines data p = none) →
      findLines data = none) := by
  refine ⟨?_, ?_, ?_, ?_, ?_, ?_⟩
  · intro data xs h1
    simp [findLines, possiblePaths, List.findSome?_cons, h1]
  · intro data xs h1 h2
    simp [findLines, possiblePaths, List.findSome?_cons, h1, h2]
  · intro data xs h1 h2 h3
    simp [findLines, possiblePaths, List.findSome?_cons, h1, h2, h3]
  · intro data xs h1 h2 h3 h4
    simp [findLines, possiblePaths, List.findSome?_cons, h1, h2, h3, h4]
  · intro data xs h1 h2 h3 h4 h5
    simp [findLines, possiblePaths, List.findSome?_cons, h1, h2, h3, h4, h5]
  · intro data h
    have h1 := h ["upcomingBills", "lines"] (by simp [possiblePaths])
    have h2 := h ["lines"] (by simp [possiblePaths])
    have h3 := h ["QuoteDetails", "upcomingBills", "lines"] (by simp [possiblePaths])
    have h4 := h ["quote", "upcomingBills", "lines"] (by simp [possiblePaths])
    have h5 := h ["data", "upcomingBills", "lines"] (by simp [possiblePaths])
    simp [findLines, possiblePaths, List.findSome?_cons, h1, h2, h3, h4, h5]

theorem claim_C6_amended_witness : findLines dataBoth = some [JVal.num 2] :=
  claim_C6_amended.1 dataBoth [JVal.num 2] rfl

/-! ### Claim C2: the grouper -/

theorem appendToGroup_alookup (k k' : String) (it : LineItem)
    (acc : List (String × List LineItem)) :
    alookup k' (appendToGroup k it acc) =
      if k' = k then some ((alookup k acc).getD [] ++ [it]) else alookup k' acc := by
  rw [appendToGroup]
  cases h : alookup k acc with
  | none =>
    by_cases hk : k' = k
    · subst hk
      rw [if_pos rfl, alookup_append_right _ _ _ h]
      simp [alookup]
    · rw [if_neg hk]
      cases h' : alookup k' acc with
      | none =>
        rw [alookup_append_right _ _ _ h']
        simp [alookup, Ne.symm hk]
      | some g => exact alookup_append_left _ _ _ _ h'
  | some g =>
    by_cases hk : k' = k
    · subst hk
      rw [if_pos rfl]
      simpa using alookup_aset_self _ _ acc (by simp [h])
    · rw [if_neg hk]
      exact alookup_aset_other _ _ _ _ hk

theorem appendToGroup_map_fst (k : String) (it : LineItem)
    (acc : List (String × List LineItem)) :
    (appendToGroup k it acc).map Prod.fst =
      if k ∈ acc.map Prod.fst then acc.map Prod.fst else acc.map Prod.fst ++ [k] := by
  rw [appendToGroup]
  cases h : alookup k acc with
  | none =>
    rw [if_neg (fun hmem => absurd ((alookup_isSome_iff k acc).mpr hmem) (by simp [h]))]
    simp
  | some g =>
    rw [if_pos ((alookup_isSome_iff k acc).mp (by simp [h]))]
    exact aset_map_fst _ _ _

theorem foldPairs_alookup (ps : List (String × LineItem))
    (acc : List (String × List LineItem)) (k : String) :
    alookup k (ps.foldl (fun a p => appendToGroup p.1 p.2 a) acc) =
      if (alookup k acc).isSome = true ∨ k ∈ ps.map Prod.fst
      then some ((alookup k acc).getD [] ++ (ps.filter (fun p => p.1 = k)).map Prod.snd)
      else none := by
  induction ps generalizing acc with
  | nil =>
    cases h : alookup k acc with
    | none => simp [h]
    | some g => simp [h]
  | cons p ps' ih =>
    rw [List.foldl_cons, ih]
    by_cases hk : p.1 = k
    · have hl : alookup k (appendToGroup p.1 p.2 acc)
          = some ((alookup k acc).getD [] ++ [p.2]) := by
        rw [appendToGroup_alookup, if_pos hk.symm, hk]
      rw [hl]
      rw [if_pos (Or.inl (by simp [hl]))]
      rw [if_pos (Or.inr (by simp [hk]))]
      simp [List.filter_cons, hk]
    · have hl : alookup k (appendToGroup p.1 p.2 acc) = alookup k acc := by
        rw [appendToGroup_alookup, if_neg (fun h => hk h.symm)]
      rw [hl]
      have hne : ¬ k = p.1 := fun h => hk h.symm
      have hmem : (k ∈ (p :: ps').map Prod.fst) ↔ (k ∈ ps'.map Prod.fst) := by
        simp [hne]
      have hfil : ((p :: ps').filter (fun q => q.1 = k)) = ps'.filter (fun q => q.1 = k) := by
        simp [List.filter_cons, hk]
      rw [hfil]
      by_cases hc : (alookup k acc).isSome = true ∨ k ∈ ps'.map Prod.fst
      · rw [if_pos hc, if_pos (by tauto)]
      · rw [if_neg hc, if_neg (by rw [hmem]; exact hc)]

theorem foldPairs_map_fst (ps : List (String × LineItem))
    (acc : List (String × List LineItem)) :
    (ps.foldl (fun a p => appendToGroup p.1 p.2 a) acc).map Prod.fst =
      acc.map Prod.fst ++ firstOccAux (acc.map Prod.fst) (ps.map Prod.fst) := by
  induction ps generalizing acc with
  | nil => simp [firstOccAux]
  | cons p ps' ih =>
    rw [List.foldl_cons, ih]
    by_cases hmem : p.1 ∈ acc.map Prod.fst
    · rw [appendToGroup_map_fst, if_pos hmem]
      simp only [List.map_cons, firstOccAux, if_pos hmem]
    · rw [appendToGroup_map_fst, if_neg hmem]
      simp only [List.map_cons, firstOccAux, if_neg hmem]
      rw [List.append_assoc]
      simp

theorem resolveKeysClaim_length (cur : String) (l : List String) :
    (resolveKeysClaim cur l).length = l.length := by
  induction l generalizing cur with
  | nil => rfl
  | cons s rest ih => simp [resolveKeysClaim, ih]

theorem firstOccAux_mem (seen l : List String) (k : String) (h : k ∈ firstOccAux seen l) :
    k ∈ l := by
  induction l generalizing seen with
  | nil => simp [firstOccAux] at h
  | cons x rest ih =>
    rw [firstOccAux] at h
    by_cases hx : x ∈ seen
    · rw [if_pos hx] at h
      exact List.mem_cons_of_mem _ (ih _ h)
    · rw [if_neg hx] at h
      rcases List.mem_cons.mp h with rfl | h'
      · exact List.mem_cons_self _ _
      · exact List.mem_cons_of_mem _ (ih _ h')

theorem curTruthy_false_getD (cur : Option String) (h : curTruthy cur = false) :
    cur.getD "" = "" := by
  cases cur with
  | none => rfl
  | some c =>
    have : c = "" := by simpa [curTruthy] using h
    simp [this]

theorem groupBySnoAux_eq_foldPairs (items : List LineItem) (cur : Option String)
    (acc : List (String × List LineItem)) :
    groupBySnoAux acc cur items =
      ((resolveKeysClaim (cur.getD "") (items.map LineItem.sno)).zip items).foldl
        (fun a p => appendToGroup p.1 p.2 a) acc := by
  induction items generalizing cur acc with
  | nil => rfl
  | cons it rest ih =>
    simp only [groupBySnoAux, List.map_cons, resolveKeysClaim]
    by_cases hs : it.sno = ""
    · cases ht : curTruthy cur with
      | true =>
        rw [if_pos ⟨hs, rfl⟩, ih cur]
        simp [hs]
      | false =>
        rw [if_neg (by simp), ih (some it.sno)]
        have hgd : cur.getD "" = "" := curTruthy_false_getD cur ht
        simp [hs, hgd]
    · rw [if_neg (by simp [hs]), ih (some it.sno)]
      simp [hs]

/-- C2: the grouper resolves each item's key to the most recent non-empty
sequence number (empty-string key when there is none, in particular when the
very first item is a continuation), produces the groups in first-occurrence
order of resolved keys, preserves input order inside each group, and on
sequence numbers `["1","","2","",""]` yields exactly the two groups
`"1"` (2 items) and `"2"` (3 items). -/
theorem claim_C2 :
    (∀ items : List LineItem,
      (groupBySno items).map Prod.fst
        = firstOcc (resolveKeysClaim "" (items.map LineItem.sno)) ∧
      ∀ k, k ∈ (groupBySno items).map Prod.fst →
        alookup k (groupBySno items) =
          some ((((resolveKeysClaim "" (items.map LineItem.sno)).zip items).filter
            (fun p => p.1 = k)).map Prod.snd)) ∧
    groupBySno [⟨"1", "a", 0, "N"⟩, ⟨"", "b", 0, "N"⟩, ⟨"2", "c", 0, "N"⟩,
                ⟨"", "d", 0, "N"⟩, ⟨"", "e", 0, "N"⟩]
      = [("1", [⟨"1", "a", 0, "N"⟩, ⟨"", "b", 0, "N"⟩]),
         ("2", [⟨"2", "c", 0, "N"⟩, ⟨"", "d", 0, "N"⟩, ⟨"", "e", 0, "N"⟩])] := by
  constructor
  · intro items
    have hlen : (resolveKeysClaim "" (items.map LineItem.sno)).length ≤ items.length := by
      rw [resolveKeysClaim_length]
      simp
    have hfst : ((resolveKeysClaim "" (items.map LineItem.sno)).zip items).map Prod.fst
        = resolveKeysClaim "" (items.map LineItem.sno) :=
      List.map_fst_zip _ _ hlen
    have heq : groupBySno items =
        ((resolveKeysClaim "" (items.map LineItem.sno)).zip items).foldl
          (fun a p => appendToGroup p.1 p.2 a) [] := by
      rw [groupBySno, groupBySnoAux_eq_foldPairs]
      rfl
    constructor
    · rw [heq, foldPairs_map_fst, hfst]
      simp [firstOcc, alookup]
    · intro k hk
      rw [heq] at hk ⊢
      rw [foldPairs_alookup]
      rw [foldPairs_map_fst, hfst] at hk
      simp only [List.map_nil, List.nil_append] at hk
      have hkmem : k ∈ ((resolveKeysClaim "" (items.map LineItem.sno)).zip items).map Prod.fst := by
        rw [hfst]
        exact firstOccAux_mem [] _ k hk
      rw [if_pos (Or.inr hkmem)]
      simp [alookup]
  · rfl

theorem claim_C2_witness :
    alookup "1" (groupBySno [⟨"1", "a", 0, "N"⟩, ⟨"", "b", 0, "N"⟩]) =
      some ((((resolveKeysClaim ""
          (([⟨"1", "a", 0, "N"⟩, ⟨"", "b", 0, "N"⟩] : List LineItem).map LineItem.sno)).zip
            [⟨"1", "a", 0, "N"⟩, ⟨"", "b", 0, "N"⟩]).filter
          (fun p => p.1 = "1")).map Prod.snd) :=
  (claim_C2.1 [⟨"1", "a", 0, "N"⟩, ⟨"", "b", 0, "N"⟩]).2 "1" (by decide)

/-! ### Claim C9: product text formatter -/

theorem isPrefixOfIff (a b : List Char) : a.isPrefixOf b = true ↔ a <+: b := by
  exact List.isPrefixOf_iff_prefix

theorem subBeforeAux_zero (label cs : List Char) : subBeforeAux label 0 cs = cs := by
  cases cs <;> rfl

theorem subBeforeAux_length_ge (label : List Char) (fuel : Nat) (cs : List Char) :
    cs.length ≤ (subBeforeAux label fuel cs).length := by
  induction fuel generalizing cs with
  | zero => rw [subBeforeAux_zero]
  | succ f ih =>
    cases cs with
    | nil => simp [subBeforeAux]
    | cons c cs' =>
      rw [subBeforeAux]
      split
      case isTrue h =>
        have hpre : label <+: (c :: cs') := by
          rw [← isPrefixOfIff]
          exact h.2
        have hlen := hpre.length_le
        have hne : 1 ≤ label.length := List.length_pos.mpr h.1
        have hrec := ih (cs'.drop (label.length - 1))
        simp only [List.length_cons, List.length_append, List.length_drop] at *
        omega
      case isFalse h =>
        have hrec := ih cs'
        simp only [List.length_cons, List.length_append]
        omega

theorem containsSub_cons (p : List Char) (x : Char) (l : List Char)
    (h : containsSub p l = true) : containsSub p (x :: l) = true := by
  rw [containsSub, h, Bool.or_true]

theorem containsSub_append_left (p s t : List Char) (h : containsSub p t = true) :
    containsSub p (s ++ t) = true := by
  induction s with
  | nil => exact h
  | cons x s' ih => exact containsSub_cons p x _ ih

theorem containsSub_self_append (p t : List Char) (hp : p ≠ []) :
    containsSub p (p ++ t) = true := by
  cases p with
  | nil => exact absurd rfl hp
  | cons c p' =>
    rw [List.cons_append, containsSub]
    have : (c :: p').isPrefixOf (c :: (p' ++ t)) = true := by
      rw [isPrefixOfIff, ← List.cons_append]
      exact ⟨t, rfl⟩
    rw [this, Bool.true_or]

theorem containsSub_nil (p : List Char) (hp : p ≠ []) : containsSub p [] = false := by
  rw [containsSub]
  simpa using hp

theorem containsSub_ne_nil (p l : List Char) (hp : p ≠ []) (h : containsSub p l = true) :
    l ≠ [] := by
  intro hl
  rw [hl, containsSub_nil p hp] at h
  cases h

theorem subBeforeAux_length_lt (label : List Char) (hne : label ≠ []) (fuel : Nat)
    (cs : List Char) (hfuel : cs.length ≤ fuel) (h : containsSub label cs = true) :
    cs.length < (subBeforeAux label fuel cs).length := by
  induction fuel generalizing cs with
  | zero =>
    have : cs = [] := List.length_eq_zero.mp (Nat.le_antisymm hfuel (Nat.zero_le _))
    exact absurd h (by simp [this, containsSub_nil label hne])
  | succ f ih =>
    cases cs with
    | nil => exact absurd h (by simp [containsSub_nil label hne])
    | cons c cs' =>
      rw [subBeforeAux]
      split
      case isTrue hm =>
        have hpre : label <+: (c :: cs') := by
          rw [← isPrefixOfIff]
          exact hm.2
        have hlen := hpre.length_le
        have h1 : 1 ≤ label.length := List.length_pos.mpr hne
        have hrec := subBeforeAux_length_ge label f (cs'.drop (label.length - 1))
        simp only [List.length_cons, List.length_append, List.length_drop] at *
        omega
      case isFalse hm =>
        have hnp : ¬ label.isPrefixOf (c :: cs') = true := fun hp => hm ⟨hne, hp⟩
        rw [containsSub, Bool.or_eq_true] at h
        rcases h with hp | hc
        · exact absurd hp hnp
        · have hrec := ih cs' (by simp only [List.length_cons] at hfuel; omega) hc
          simp only [List.length_cons]
          omega

theorem subBeforeAux_contains_self (label : List Char) (hne : label ≠ []) (fuel : Nat)
    (cs : List Char) (hfuel : cs.length ≤ fuel) (h : containsSub label cs = true) :
    containsSub label (subBeforeAux label fuel cs) = true := by
  induction fuel generalizing cs with
  | zero =>
    have : cs = [] := List.length_eq_zero.mp (Nat.le_antisymm hfuel (Nat.zero_le _))
    exact absurd h (by simp [this, containsSub_nil label hne])
  | succ f ih =>
    cases cs with
    | nil => exact absurd h (by simp [containsSub_nil label hne])
    | cons c cs' =>
      rw [subBeforeAux]
      split
      case isTrue hm =>
        exact containsSub_cons _ _ _ (containsSub_self_append label _ hne)
      case isFalse hm =>
        have hnp : ¬ label.isPrefixOf (c :: cs') = true := fun hp => hm ⟨hne, hp⟩
        rw [containsSub, Bool.or_eq_true] at h
        rcases h with hp | hc
        · exact absurd hp hnp
        · exact containsSub_cons _ _ _
            (ih cs' (by simp only [List.length_cons] at hfuel; omega) hc)

theorem subBeforeAux_copy (label : List Char) (bch : Char) (l't : List Char)
    (hb : bch ∉ label) (fuel : Nat) (t : List Char) :
    subBeforeAux (bch :: l't) fuel (label ++ t)
      = label ++ subBeforeAux (bch :: l't) (fuel - label.length) t := by
  induction label generalizing fuel with
  | nil => simp
  | cons c lrest ih =>
    have hbc : bch ≠ c := fun h => hb (h ▸ List.mem_cons_self _ _)
    have hbrest : bch ∉ lrest := fun h => hb (List.mem_cons_of_mem _ h)
    cases fuel with
    | zero =>
      rw [subBeforeAux_zero, Nat.zero_sub, subBeforeAux_zero]
    | succ f =>
      rw [List.cons_append, subBeforeAux]
      rw [if_neg ?hneg]
      case hneg =>
        rintro ⟨-, hp⟩
        rcases List.cons_prefix_cons.mp ((isPrefixOfIff _ _).mp hp) with ⟨heq, -⟩
        exact hbc heq
      rw [ih hbrest f]
      have hfe : f + 1 - (c :: lrest).length = f - lrest.length := by
        simp only [List.length_cons]
        omega
      rw [hfe]
      simp

theorem containsSub_append_elim (hch : Char) (lt seen rest : List Char) (hh : hch ∉ seen)
    (hc : containsSub (hch :: lt) (seen ++ rest) = true) :
    containsSub (hch :: lt) rest = true := by
  induction seen with
  | nil => exact hc
  | cons x s' ih =>
    have hhx : hch ≠ x := fun h => hh (h ▸ List.mem_cons_self _ _)
    have hhs : hch ∉ s' := fun h => hh (List.mem_cons_of_mem _ h)
    rw [List.cons_append, containsSub, Bool.or_eq_true] at hc
    rcases hc with hp | hc'
    · rcases List.cons_prefix_cons.mp ((isPrefixOfIff _ _).mp hp) with ⟨heq, -⟩
      exact absurd heq hhx
    · exact ih hhs hc'

theorem subBeforeAux_contains_other (hch : Char) (lt : List Char) (bch : Char) (l't : List Char)
    (hh : hch ∉ bch :: l't) (hb : bch ∉ hch :: lt) (fuel : Nat) (cs : List Char)
    (hfuel : cs.length ≤ fuel) (h : containsSub (hch :: lt) cs = true) :
    containsSub (hch :: lt) (subBeforeAux (bch :: l't) fuel cs) = true := by
  induction fuel generalizing cs with
  | zero =>
    have : cs = [] := List.length_eq_zero.mp (Nat.le_antisymm hfuel (Nat.zero_le _))
    exact absurd h (by simp [this, containsSub_nil])
  | succ f ih =>
    cases cs with
    | nil => exact absurd h (by simp [containsSub_nil])
    | cons c cs' =>
      rw [containsSub, Bool.or_eq_true] at h
      rcases h with hp | hcs'
      · obtain ⟨t, ht⟩ := (isPrefixOfIff _ _).mp hp
        rw [← ht, subBeforeAux_copy _ _ _ hb]
        exact containsSub_self_append _ _ (by simp)
      · rw [subBeforeAux]
        split
        case isTrue hm =>
          obtain ⟨t, ht⟩ := (isPrefixOfIff _ _).mp hm.2
          rw [List.cons_append] at ht
          injection ht with hbc hcs
          have harg : cs'.drop ((bch :: l't).length - 1) = t := by
            rw [← hcs]
            simp [List.drop_left]
          have hct : containsSub (hch :: lt) t = true := by
            refine containsSub_append_elim hch lt l't t ?_ ?_
            · exact fun hmem => hh (List.mem_cons_of_mem _ hmem)
            · rw [hcs]
              exact hcs'
          have hbound : t.length ≤ f := by
            have h1 : cs'.length ≤ f := by
              simp only [List.length_cons] at hfuel
              omega
            have h2 : cs'.length = l't.length + t.length := by
              rw [← hcs]
              simp
            omega
          refine containsSub_cons _ _ _ (containsSub_append_left _ _ _ ?_)
          rw [harg]
          exact ih t hbound hct
        case isFalse hm =>
          refine containsSub_cons _ _ _ (ih cs' ?_ hcs')
          simp only [List.length_cons] at hfuel
          omega

theorem subBefore_length_ge (label cs : List Char) :
    cs.length ≤ (subBefore label cs).length :=
  subBeforeAux_length_ge label cs.length cs

theorem subBefore_length_lt (label : List Char) (hne : label ≠ []) (cs : List Char)
    (h : containsSub label cs = true) : cs.length < (subBefore label cs).length :=
  subBeforeAux_length_lt label hne cs.length cs (Nat.le_refl _) h

theorem subBefore_contains_self (label : List Char) (hne : label ≠ []) (cs : List Char)
    (h : containsSub label cs = true) : containsSub label (subBefore label cs) = true :=
  subBeforeAux_contains_self label hne cs.length cs (Nat.le_refl _) h

theorem subBefore_contains_other (hch : Char) (lt : List Char) (bch : Char) (l't : List Char)
    (hh : hch ∉ bch :: l't) (hb : bch ∉ hch :: lt) (cs : List Char)
    (h : containsSub (hch :: lt) cs = true) :
    containsSub (hch :: lt) (subBefore (bch :: l't) cs) = true :=
  subBeforeAux_contains_other hch lt bch l't hh hb cs.length cs (Nat.le_refl _) h

theorem format_product_text_data (s : String) (hs : s ≠ "") :
    (format_product_text s).data = subBefore billLabel.data (subBefore entLabel.data s.data) := by
  rw [format_product_text, if_neg hs]

theorem string_ne_of_data_length {a b : String}
    (h : a.data.length ≠ b.data.length) : a ≠ b := by
  intro he
  exact h (by rw [he])

theorem string_ne_empty_of_data {a : String} (h : a.data ≠ []) : a ≠ "" := by
  intro he
  rw [he] at h
  exact h rfl

/-- C9: the formatter inserts a line break before each occurrence of
"Entitlement Number:" and "Billing period:", and it is not idempotent: on
any text containing one of the labels, a second application inserts a
duplicate break, so the result differs. -/
theorem claim_C9 :
    format_product_text "A Entitlement Number: 1 Billing period: B"
      = "A \nEntitlement Number: 1 \nBilling period: B" ∧
    ∀ s : String,
      containsSub entLabel.data s.data = true ∨ containsSub billLabel.data s.data = true →
      format_product_text (format_product_text s) ≠ format_product_text s := by
  have hEne : entLabel.data ≠ [] := by decide
  have hBne : billLabel.data ≠ [] := by decide
  have hED : entLabel.data = 'E' :: "ntitlement Number:".data := rfl
  have hBD : billLabel.data = 'B' :: "illing period:".data := rfl
  have hEB : 'E' ∉ 'B' :: "illing period:".data := by decide
  have hBE : 'B' ∉ 'E' :: "ntitlement Number:".data := by decide
  constructor
  · decide
  · intro s h
    have hs : s ≠ "" := by
      rcases h with h | h
      · exact string_ne_empty_of_data (containsSub_ne_nil _ _ hEne h)
      · exact string_ne_empty_of_data (containsSub_ne_nil _ _ hBne h)
    have hfs := format_product_text_data s hs
    rcases h with h | h
    · -- the text contains "Entitlement Number:"
      have h1 : containsSub entLabel.data (subBefore entLabel.data s.data) = true :=
        subBefore_contains_self _ hEne _ h
      have h2 : containsSub entLabel.data
          (subBefore billLabel.data (subBefore entLabel.data s.data)) = true := by
        simp only [hED, hBD] at h1 ⊢
        exact subBefore_contains_other _ _ _ _ hEB hBE _ h1
      rw [← hfs] at h2
      have hfs_ne : format_product_text s ≠ "" :=
        string_ne_empty_of_data (containsSub_ne_nil _ _ hEne h2)
      have hffs := format_product_text_data (format_product_text s) hfs_ne
      refine string_ne_of_data_length ?_
      rw [hffs, hfs]
      have ha : ((format_product_text s).data).length
          < (subBefore entLabel.data (format_product_text s).data).length :=
        subBefore_length_lt _ hEne _ h2
      have hb2 : (subBefore entLabel.data (format_product_text s).data).length
          ≤ (subBefore billLabel.data (subBefore entLabel.data (format_product_text s).data)).length :=
        subBefore_length_ge _ _
      rw [hfs] at ha hb2
      omega
    · -- the text contains "Billing period:"
      have h1 : containsSub billLabel.data (subBefore entLabel.data s.data) = true := by
        simp only [hED, hBD] at h ⊢
        exact subBefore_contains_other _ _ _ _ hBE hEB _ h
      have h2 : containsSub billLabel.data
          (subBefore billLabel.data (subBefore entLabel.data s.data)) = true :=
        subBefore_contains_self _ hBne _ h1
      rw [← hfs] at h2
      have hfs_ne : format_product_text s ≠ "" :=
        string_ne_empty_of_data (containsSub_ne_nil _ _ hBne h2)
      have hffs := format_product_text_data (format_product_text s) hfs_ne
      refine string_ne_of_data_length ?_
      rw [hffs, hfs]
      have h3 : containsSub billLabel.data
          (subBefore entLabel.data (format_product_text s).data) = true := by
        simp only [hED, hBD] at h2 ⊢
        exact subBefore_contains_other _ _ _ _ hBE hEB _ h2
      have ha : ((format_product_text s).data).length
          ≤ (subBefore entLabel.data (format_product_text s).data).length :=
        subBefore_length_ge _ _
      have hb2 : (subBefore entLabel.data (format_product_text s).data).length
          < (subBefore billLabel.data (subBefore entLabel.data (format_product_text s).data)).length :=
        subBefore_length_lt _ hBne _ h3
      rw [hfs] at ha hb2
      omega

theorem claim_C9_witness :
    format_product_text (format_product_text "x Billing period: y")
      ≠ format_product_text "x Billing period: y" :=
  claim_C9.2 "x Billing period: y" (Or.inr (by decide))

/-! ### Claim C7: per-document error containment -/

theorem processSingleFileBody_status (d : Doc)
    (r : Option ((List EGroupCell × Nat) × CellVal) × String × String)
    (h : processSingleFileBody d = .ok r) :
    r.2.1 = "success" ∨ r.2.1 = "error" := by
  cases d with
  | jsonDoc decoded =>
    cases decoded with
    | none => cases h
    | some p =>
      rw [processSingleFileBody] at h
      cases he : extractFromJsonContent p with
      | error e =>
        rw [he] at h
        cases h
      | ok td =>
        rw [he] at h
        dsimp only at h
        by_cases hemp : td.isEmpty
        · rw [if_pos hemp] at h
          cases h
          right
          rfl
        · rw [if_neg hemp] at h
          cases h
          left
          rfl
  | pdfDoc tables =>
    rw [processSingleFileBody] at h
    by_cases hemp : (extractTablesFromPdfContent tables).isEmpty
    · rw [if_pos hemp] at h
      cases h
      right
      rfl
    · rw [if_neg hemp] at h
      cases h
      left
      rfl

/-- C7: the document-processing boundary converts every per-document failure
into a `(status, message)` result — the status is always `"success"` or
`"error"`, never an escaped exception — and JSON text that fails to parse
yields an empty extraction result and an error report, not a crash. -/
theorem claim_C7 :
    (∀ d : Doc, (processSingleFile d).2.1 = "success" ∨ (processSingleFile d).2.1 = "error") ∧
    extractFromJsonContent none = .ok [] ∧
    processSingleFile (Doc.jsonDoc (some none))
      = (none, "error", "No data extracted from JSON") := by
  refine ⟨?_, rfl, rfl⟩
  intro d
  rw [processSingleFile]
  cases hb : processSingleFileBody d with
  | error e =>
    right
    rfl
  | ok r => exact processSingleFileBody_status d r hb
